import Mathlib

/-!
Shallow embedding of the drom.ru crawler (`src/parser.py` and
`src/parser/parser_mod.py`) and proofs of the specification claims.

Python strings are modelled as Lean `String`/`List Char`, `bytes` as
`List Nat` (each element a byte value), Python `None`-able results as
`Option`, and Python dicts (which preserve insertion order) as ordered
association lists.  The regular-expression fragments used by the source
are modelled by explicit left-to-right scanners reproducing the leftmost
match / greedy-with-backtracking behaviour of Python's `re` on those
concrete patterns.
-/

namespace Drom

/-! ### Character-level helpers modelling Python `str` / `re` behaviour -/

/-- Python `str.lower` / `re.IGNORECASE` case folding restricted to the
alphabets the source manipulates: ASCII letters and the basic Cyrillic
block (`А`-`Я` plus `Ё`). -/
def pyLowerChar (c : Char) : Char :=
  if 'A' ≤ c ∧ c ≤ 'Z' then Char.ofNat (c.toNat + 32)
  else if 'А' ≤ c ∧ c ≤ 'Я' then Char.ofNat (c.toNat + 32)
  else if c = 'Ё' then 'ё'
  else c

def pyLower (cs : List Char) : List Char := cs.map pyLowerChar

/-- `\d` of Python `re` (decimal digits; modelled on the ASCII digits the
target pages contain). -/
def isPyDigit (c : Char) : Bool := '0' ≤ c ∧ c ≤ '9'

/-- `\s` of Python `re` / `str.strip` whitespace (including NBSP). -/
def isPySpace (c : Char) : Bool :=
  c = ' ' ∨ c = '\t' ∨ c = '\n' ∨ c = '\x0d' ∨ c = Char.ofNat 11 ∨
  c = Char.ofNat 12 ∨ c = Char.ofNat 0xA0

/-- `\w` of Python `re` (word characters; ASCII alphanumerics, underscore
and the Cyrillic block, which covers the letters in the source's texts). -/
def isWordChar (c : Char) : Bool :=
  isPyDigit c ∨ ('a' ≤ c ∧ c ≤ 'z') ∨ ('A' ≤ c ∧ c ≤ 'Z') ∨ c = '_' ∨
  (Char.ofNat 0x400 ≤ c ∧ c ≤ Char.ofNat 0x4FF)

/-- Numeric value of a run of decimal digits, most significant first
(the value `int` gives a digit string). -/
def digitsVal (cs : List Char) : Nat :=
  cs.foldl (fun a c => 10 * a + (c.toNat - 48)) 0

/-- Python `str.strip()`. -/
def pyStrip (cs : List Char) : List Char :=
  ((cs.dropWhile isPySpace).reverse.dropWhile isPySpace).reverse

/-- Whether `pat` occurs as a contiguous sublist of `cs`
(Python's `pat in s`). -/
def containsSub (pat : List Char) : List Char → Bool
  | [] => pat = []
  | c :: rest => pat.isPrefixOf (c :: rest) || containsSub pat rest

/-- Case-insensitive containment test (`re.search` of a literal with
`re.I`, or `pat in s.lower()`). -/
def containsCI (pat : String) (s : String) : Bool :=
  containsSub pat.data (pyLower s.data)

/-- Collapse every maximal run of characters satisfying `p` to a single
`' '` (the `re.sub(r'[...]+', ' ', s)` idiom of the source). -/
def collapseRuns (p : Char → Bool) : Bool → List Char → List Char
  | _, [] => []
  | inRun, c :: rest =>
    if p c then
      (if inRun then collapseRuns p true rest else ' ' :: collapseRuns p true rest)
    else c :: collapseRuns p false rest

lemma length_dropWhile_le (p : Char → Bool) (l : List Char) :
    (l.dropWhile p).length ≤ l.length := by
  induction l with
  | nil => simp [List.dropWhile]
  | cons c rest ih =>
    by_cases h : p c
    · simp [List.dropWhile, h]; omega
    · simp [List.dropWhile, h]

/-- `sep.join(xs)`. -/
def joinSep (sep : List Char) : List (List Char) → List Char
  | [] => []
  | [x] => x
  | x :: y :: rest => x ++ sep ++ joinSep sep (y :: rest)

/-- Split a string at the first `':'` (Python `s.split(":", 1)`),
assuming one is present; returns (before, after). -/
def splitOnceColon : List Char → List Char × List Char
  | [] => ([], [])
  | c :: rest =>
    if c = ':' then ([], rest)
    else
      let r := splitOnceColon rest
      (c :: r.1, r.2)

end Drom

namespace Drom

/-! ### `_digits_int` (src/parser.py:39-46, src/parser/parser_mod.py:44-53) -/

/-- `_digits_int` of src/parser.py: `if not s: return None`, strip all
non-digits, `int` of what remains (or `None` if empty). -/
def digitsIntPy (s : Option String) : Option Nat :=
  match s with
  | none => none
  | some s =>
    if s = "" then none
    else
      let d := s.data.filter isPyDigit
      if d = [] then none else some (digitsVal d)

/-- `_digits_int` of src/parser/parser_mod.py: `if s is None: return None`,
strip all non-digits, `None` if nothing remains, else `int`. -/
def digitsIntMod (s : Option String) : Option Nat :=
  match s with
  | none => none
  | some s =>
    let d := s.data.filter isPyDigit
    if d = [] then none else some (digitsVal d)

/-- The number denoted by concatenating decimal digits in order
(specification-side reading, via Mathlib's `Nat.ofDigits`). -/
def concatDigitsVal (cs : List Char) : Nat :=
  Nat.ofDigits 10 (cs.map (fun c => c.toNat - 48)).reverse

lemma digitsVal_eq_concatDigitsVal (cs : List Char) :
    digitsVal cs = concatDigitsVal cs := by
  induction cs using List.reverseRecOn with
  | nil => simp [digitsVal, concatDigitsVal, Nat.ofDigits]
  | append_singleton l c ih =>
    simp only [digitsVal, List.foldl_append, List.foldl_cons, List.foldl_nil] at *
    simp only [concatDigitsVal, List.map_append, List.reverse_append] at *
    simp [Nat.ofDigits, ih]
    ring

end Drom

namespace Drom

/-! ### Link dedup (src/parser.py:352-355, src/parser/parser_mod.py:498-505) -/

/-- The dedup loop shared by both `collect_links` revisions: walk the
collected list keeping an element only if it has not been seen yet
(`seen = set(); [x for x in links if not (x in seen or seen.add(x))]`). -/
def dedupeAux (seen : List String) : List String → List String
  | [] => []
  | x :: xs =>
    if x ∈ seen then dedupeAux seen xs
    else x :: dedupeAux (x :: seen) xs

/-- Order-preserving dedup applied to the collected link sequence. -/
def dedupeLinks (links : List String) : List String := dedupeAux [] links

lemma mem_dedupeAux {a : String} :
    ∀ (l : List String) (seen : List String),
      a ∈ dedupeAux seen l ↔ a ∈ l ∧ a ∉ seen := by
  intro l
  induction l with
  | nil => intro seen; simp [dedupeAux]
  | cons x xs ih =>
    intro seen
    by_cases hx : x ∈ seen
    · simp only [dedupeAux, if_pos hx, ih]
      constructor
      · rintro ⟨h1, h2⟩
        exact ⟨List.mem_cons_of_mem _ h1, h2⟩
      · rintro ⟨h1, h2⟩
        rcases List.mem_cons.mp h1 with rfl | h1
        · exact absurd hx h2
        · exact ⟨h1, h2⟩
    · simp only [dedupeAux, if_neg hx]
      constructor
      · intro h
        rcases List.mem_cons.mp h with rfl | h
        · exact ⟨List.mem_cons_self _ _, hx⟩
        · rcases (ih _).mp h with ⟨h1, h2⟩
          simp only [List.mem_cons, not_or] at h2
          exact ⟨List.mem_cons_of_mem _ h1, h2.2⟩
      · rintro ⟨h1, h2⟩
        rcases List.mem_cons.mp h1 with rfl | h1
        · exact List.mem_cons_self _ _
        · by_cases hax : a = x
          · subst hax; exact List.mem_cons_self _ _
          · exact List.mem_cons_of_mem _
              ((ih _).mpr ⟨h1, by simp [hax, h2]⟩)

lemma nodup_dedupeAux : ∀ (l seen : List String), (dedupeAux seen l).Nodup := by
  intro l
  induction l with
  | nil => intro seen; simp [dedupeAux]
  | cons x xs ih =>
    intro seen
    by_cases hx : x ∈ seen
    · simpa [dedupeAux, hx] using ih seen
    · simp only [dedupeAux, if_neg hx, List.nodup_cons]
      refine ⟨fun hmem => ?_, ih _⟩
      exact ((mem_dedupeAux _ _).mp hmem).2 (List.mem_cons_self _ _)

lemma pairwise_indexOf_dedupeAux :
    ∀ (l seen : List String),
      (dedupeAux seen l).Pairwise (fun a b => l.indexOf a < l.indexOf b) := by
  intro l
  induction l with
  | nil => intro seen; simp [dedupeAux]
  | cons x xs ih =>
    intro seen
    have lift : ∀ seen', (dedupeAux seen' xs).Pairwise
        (fun a b => (x :: xs).indexOf a < (x :: xs).indexOf b) → True := fun _ _ => trivial
    by_cases hx : x ∈ seen
    · simp only [dedupeAux, if_pos hx]
      have base := ih seen
      refine base.imp_of_mem ?_
      intro a b ha hb hab
      have hax : a ≠ x := by
        rintro rfl
        exact ((mem_dedupeAux _ _).mp ha).2 hx
      have hbx : b ≠ x := by
        rintro rfl
        exact ((mem_dedupeAux _ _).mp hb).2 hx
      rw [List.indexOf_cons_ne _ (Ne.symm hax),
          List.indexOf_cons_ne _ (Ne.symm hbx)]
      omega
    · simp only [dedupeAux, if_neg hx]
      constructor
      · intro b hb
        have hbx : b ≠ x := by
          rintro rfl
          have := ((mem_dedupeAux _ _).mp hb).2
          exact this (List.mem_cons_self _ _)
        rw [List.indexOf_cons_self, List.indexOf_cons_ne _ (Ne.symm hbx)]
        omega
      · have base := ih (x :: seen)
        refine base.imp_of_mem ?_
        intro a b ha hb hab
        have hax : a ≠ x := by
          rintro rfl
          exact ((mem_dedupeAux _ _).mp ha).2 (List.mem_cons_self _ _)
        have hbx : b ≠ x := by
          rintro rfl
          exact ((mem_dedupeAux _ _).mp hb).2 (List.mem_cons_self _ _)
        rw [List.indexOf_cons_ne _ (Ne.symm hax),
            List.indexOf_cons_ne _ (Ne.symm hbx)]
        omega

end Drom

namespace Drom

/-- C2: the link-collection dedup keeps each distinct URL exactly once, in
first-occurrence order of the collected sequence. -/
theorem collect_links_dedup_first_seen (links : List String) :
    (∀ u, u ∈ dedupeLinks links ↔ u ∈ links) ∧
    (∀ u, u ∈ links → (dedupeLinks links).count u = 1) ∧
    (dedupeLinks links).Pairwise
      (fun a b => links.indexOf a < links.indexOf b) := by
  refine ⟨?_, ?_, ?_⟩
  · intro u
    rw [dedupeLinks, mem_dedupeAux]
    simp
  · intro u hu
    have hmem : u ∈ dedupeLinks links := by
      rw [dedupeLinks, mem_dedupeAux]; simp [hu]
    have hnd : (dedupeLinks links).Nodup := nodup_dedupeAux links []
    exact List.count_eq_one_of_mem hnd hmem
  · exact pairwise_indexOf_dedupeAux links []

/-- Witness for C2 at a concrete repeated-URL sequence. -/
theorem collect_links_dedup_first_seen_witness :
    ("a" ∈ ["a", "b", "a", "b", "c"] →
      (dedupeLinks ["a", "b", "a", "b", "c"]).count "a" = 1) ∧
    dedupeLinks ["a", "b", "a", "b", "c"] = ["a", "b", "c"] :=
  ⟨(collect_links_dedup_first_seen ["a", "b", "a", "b", "c"]).2.1 "a", by decide⟩

end Drom

namespace Drom

/-- C10: the digit-extraction helper never raises: `None` and digit-free
inputs give `None`; otherwise it returns the non-negative integer formed by
concatenating all decimal digits of the string in order (`'45 000 км'`
yields 45000, `'2.0'` yields 20).  Totality is by construction of the
embedding; both revisions of `_digits_int` are covered. -/
theorem digits_int_total_concat :
    (digitsIntPy none = none ∧ digitsIntMod none = none) ∧
    (∀ s : String, s.data.filter isPyDigit = [] →
      digitsIntPy (some s) = none ∧ digitsIntMod (some s) = none) ∧
    (∀ s : String, s.data.filter isPyDigit ≠ [] →
      digitsIntPy (some s) = some (concatDigitsVal (s.data.filter isPyDigit)) ∧
      digitsIntMod (some s) = some (concatDigitsVal (s.data.filter isPyDigit))) ∧
    digitsIntPy (some "45 000 км") = some 45000 ∧
    digitsIntMod (some "45 000 км") = some 45000 ∧
    digitsIntPy (some "2.0") = some 20 ∧
    digitsIntMod (some "2.0") = some 20 := by
  refine ⟨⟨rfl, rfl⟩, ?_, ?_, by decide, by decide, by decide, by decide⟩
  · intro s h
    constructor
    · by_cases hs : s = ""
      · simp [digitsIntPy, hs]
      · simp [digitsIntPy, hs, h]
    · simp [digitsIntMod, h]
  · intro s h
    have hs : s ≠ "" := by
      intro hs
      subst hs
      exact h rfl
    simp [digitsIntPy, digitsIntMod, hs, h, digitsVal_eq_concatDigitsVal]

/-- Witness for C10 discharging its hypotheses at concrete inputs. -/
theorem digits_int_total_concat_witness :
    digitsIntPy (some "км") = none ∧
    digitsIntPy (some "2.0") =
      some (concatDigitsVal ("2.0".data.filter isPyDigit)) :=
  ⟨(digits_int_total_concat.2.1 "км" (by decide)).1,
   (digits_int_total_concat.2.2.1 "2.0" (by decide)).1⟩

end Drom

namespace Drom

/-! ### `_parse_power` (src/parser.py:66-89, src/parser/parser_mod.py:92-111) -/

/-- The unit alternation `(л\.?с\.?|лс|hp)` tested at the head of `cs`
(case-insensitive; `лс` is already covered by `л\.?с\.?`). -/
def hpUnitAt (cs : List Char) : Bool :=
  match cs with
  | [] => false
  | c :: rest =>
    if pyLowerChar c = 'л' then
      match rest with
      | '.' :: r2 => (match r2 with | c2 :: _ => pyLowerChar c2 = 'с' | [] => false)
      | c2 :: _ => pyLowerChar c2 = 'с'
      | [] => false
    else if pyLowerChar c = 'h' then
      match rest with | c2 :: _ => pyLowerChar c2 = 'p' | [] => false
    else false

/-- The unit alternation `(kW|кВт)` (also `(квт|kW)` of the detail-page
fallback) tested at the head of `cs`, case-insensitively. -/
def kwUnitAt (cs : List Char) : Bool :=
  match cs with
  | [] => false
  | c :: rest =>
    if pyLowerChar c = 'k' then
      match rest with | c2 :: _ => pyLowerChar c2 = 'w' | [] => false
    else if pyLowerChar c = 'к' then
      match rest with
      | c2 :: c3 :: _ => pyLowerChar c2 = 'в' ∧ pyLowerChar c3 = 'т'
      | _ => false
    else false

/-- The unit `л\b` of src/parser.py's third power pattern. -/
def litreUnitAt (cs : List Char) : Bool :=
  match cs with
  | [] => false
  | c :: rest =>
    decide (pyLowerChar c = 'л') &&
      (match rest with | d :: _ => !isWordChar d | [] => true)

/-- `(\d{2,4})\s*‹unit›` tried at the current position with exactly `n`
digits consumed. -/
def numUnitLen (unit : List Char → Bool) (cs : List Char) (n : Nat) : Option Nat :=
  let ds := cs.take n
  if ds.length = n ∧ ds.all isPyDigit ∧ unit ((cs.drop n).dropWhile isPySpace)
  then some (digitsVal ds) else none

/-- `(\d{2,4})\s*‹unit›` at the current position, digits matched greedily
(4 first, backtracking to 3, then 2) as Python's regex engine does. -/
def numUnitHere (unit : List Char → Bool) (cs : List Char) : Option Nat :=
  (numUnitLen unit cs 4).orElse fun _ =>
    (numUnitLen unit cs 3).orElse fun _ => numUnitLen unit cs 2

/-- Leftmost match of `(\d{2,4})\s*‹unit›` (`re.search` semantics),
returning the numeric value of the digit group. -/
def searchNumUnit (unit : List Char → Bool) : List Char → Option Nat
  | [] => none
  | c :: rest => (numUnitHere unit (c :: rest)).orElse fun _ => searchNumUnit unit rest

/-- Python `round` (round-half-to-even) of the exact rational `num/den`;
models `int(round(kw * 1.35962))` over exact arithmetic. -/
def pyRoundHalfEven (num den : Nat) : Nat :=
  let q := num / den
  let r := num % den
  if 2 * r < den then q
  else if den < 2 * r then q + 1
  else if q % 2 = 0 then q else q + 1

/-- `int(round(kw * 1.35962))`: the kilowatt → horsepower conversion of
both `_parse_power` revisions. -/
def kwToHp (kw : Nat) : Nat := pyRoundHalfEven (kw * 135962) 100000

/-- `_parse_power` of src/parser.py: horsepower pattern first, then
kilowatts (converted), then a bare `л`-suffixed number. -/
def parsePowerPy (text : String) : Option Nat :=
  if text = "" then none
  else
    match searchNumUnit hpUnitAt text.data with
    | some n => some n
    | none =>
      match searchNumUnit kwUnitAt text.data with
      | some kw => some (kwToHp kw)
      | none => searchNumUnit litreUnitAt text.data

/-- `_parse_power` of src/parser/parser_mod.py: horsepower pattern first,
then kilowatts (converted), then the bare digit run if in `[20, 2000]`. -/
def parsePowerMod (text : String) : Option Nat :=
  if text = "" then none
  else
    match searchNumUnit hpUnitAt text.data with
    | some n => some n
    | none =>
      match searchNumUnit kwUnitAt text.data with
      | some kw => some (kwToHp kw)
      | none =>
        match digitsIntMod (some text) with
        | some d => if 20 ≤ d ∧ d ≤ 2000 then some d else none
        | none => none

end Drom

namespace Drom

/-- C6: power extraction of `'150 кВт'` gives 204 hp, and in general when
no horsepower pattern matches and the first kilowatt figure is `n`, both
revisions return `round(n × 1.35962)` computed with Python's `round`
(here `kwToHp`, exact-rational round-half-even). -/
theorem power_kw_conversion :
    parsePowerPy "150 кВт" = some 204 ∧ parsePowerMod "150 кВт" = some 204 ∧
    ∀ (t : String) (n : Nat),
      searchNumUnit hpUnitAt t.data = none →
      searchNumUnit kwUnitAt t.data = some n →
      parsePowerPy t = some (kwToHp n) ∧ parsePowerMod t = some (kwToHp n) := by
  refine ⟨by decide, by decide, ?_⟩
  intro t n hhp hkw
  have ht : t ≠ "" := by
    intro h
    subst h
    simp [searchNumUnit] at hkw
  constructor
  · simp [parsePowerPy, ht, hhp, hkw]
  · simp [parsePowerMod, ht, hhp, hkw]

/-- Witness for C6's general clause at the concrete engine descriptor. -/
theorem power_kw_conversion_witness :
    parsePowerPy "150 кВт" = some (kwToHp 150) ∧ kwToHp 150 = 204 :=
  ⟨(power_kw_conversion.2.2 "150 кВт" 150 (by decide) (by decide)).1, by decide⟩

/-- C9: the horsepower pattern takes strict priority: whenever the
leftmost `(\d{2,4})\s*(л.с./лс/hp)` match exists with digit group `n`,
both `_parse_power` revisions return `n` unchanged, regardless of any
kilowatt figure elsewhere in the text. -/
theorem power_hp_priority (t : String) (n : Nat)
    (hhp : searchNumUnit hpUnitAt t.data = some n) :
    parsePowerPy t = some n ∧ parsePowerMod t = some n := by
  have ht : t ≠ "" := by
    intro h
    subst h
    simp [searchNumUnit] at hhp
  constructor
  · simp [parsePowerPy, ht, hhp]
  · simp [parsePowerMod, ht, hhp]

/-- Witness for C9 on a text containing both a horsepower and a kilowatt
figure. -/
theorem power_hp_priority_witness :
    parsePowerPy "204 л.с. (150 кВт)" = some 204 ∧
    parsePowerMod "204 л.с. (150 кВт)" = some 204 :=
  power_hp_priority "204 л.с. (150 кВт)" 204 (by decide)

end Drom

namespace Drom

/-! ### `_parse_price` (src/parser.py:49-63, src/parser/parser_mod.py:56-89) -/

/-- `re.findall(r'(\d[\d\s]*)', t)`: maximal runs starting with a digit and
continuing with digits/whitespace, collected left to right (single pass
carrying the run under construction). -/
def numRunsAux (cur : Option (List Char)) : List Char → List (List Char)
  | [] => match cur with | some r => [r.reverse] | none => []
  | c :: rest =>
    match cur with
    | some r =>
      if isPyDigit c || isPySpace c then numRunsAux (some (c :: r)) rest
      else r.reverse :: numRunsAux none rest
    | none =>
      if isPyDigit c then numRunsAux (some [c]) rest
      else numRunsAux none rest

def numRuns (cs : List Char) : List (List Char) := numRunsAux none cs

/-- `str(text).strip()` followed by the NBSP→space replacement both price
parsers start with. -/
def priceNormalize (text : String) : List Char :=
  (pyStrip text.data).map (fun c => if c = Char.ofNat 0xA0 then ' ' else c)

/-- `re.search(r'(договорн|по запросу|обсужд)', t, re.I)`. -/
def negotiablePhrase (t : List Char) : Bool :=
  containsSub "договорн".data (pyLower t) ||
    containsSub "по запросу".data (pyLower t) ||
    containsSub "обсужд".data (pyLower t)

/-- `[int(re.sub(r'\s+', '', n)) for n in nums]`: whitespace removed from
each run, then `int`. -/
def cleanedNumsOf (runs : List (List Char)) : List Nat :=
  runs.map (fun r => digitsVal (r.filter (fun c => !isPySpace c)))

/-- `[n for n in cleaned if not (1900 <= n <= 2099)]`. -/
def yearCandidates (cleaned : List Nat) : List Nat :=
  cleaned.filter (fun n => !(decide (1900 ≤ n ∧ n ≤ 2099)))

def listMax (l : List Nat) : Nat := l.foldl max 0

def sortDesc (l : List Nat) : List Nat := l.insertionSort (· ≥ ·)

/-- Lines 73-84 of src/parser/parser_mod.py: `price = max(candidates)`;
when it is small and several candidates exist, scan the descending sort
for the first value ≥ 1000, else fall back to its head. -/
def priceFromCandidates (candidates : List Nat) : Option Nat :=
  let price := listMax candidates
  if price < 1000 ∧ 1 < candidates.length then
    match (sortDesc candidates).find? (fun x => decide (1000 ≤ x)) with
    | some v => some v
    | none => (sortDesc candidates).head?
  else some price

/-- `_parse_price` of src/parser.py: keeps the raw (normalized) text and
parses the FIRST numeric run, with no year filtering. -/
def parsePricePy (text : String) : String × Option Nat :=
  if text = "" then ("N/A", none)
  else
    let t := priceNormalize text
    if negotiablePhrase t then (String.mk t, none)
    else
      match numRuns t with
      | [] => (String.mk t, none)
      | r :: _ => (String.mk t, some (digitsVal (r.filter (fun c => !isPySpace c))))

/-- `_parse_price` of src/parser/parser_mod.py: all numeric runs are
parsed, year-like values (1900-2099) are excluded, and the maximum of the
remainder is preferred; if only year-like values exist the last one is
returned only when it is not year-like (hence `None`). -/
def parsePriceMod (text : String) : Option Nat :=
  if text = "" then none
  else
    if negotiablePhrase (priceNormalize text) then none
    else
      if numRuns (priceNormalize text) = [] then none
      else
        if yearCandidates (cleanedNumsOf (numRuns (priceNormalize text))) = [] then
          match (cleanedNumsOf (numRuns (priceNormalize text))).getLast? with
          | some lastAll =>
            if 1900 ≤ lastAll ∧ lastAll ≤ 2099 then none else some lastAll
          | none => none
        else
          priceFromCandidates
            (yearCandidates (cleanedNumsOf (numRuns (priceNormalize text))))

lemma le_foldl_max (l : List Nat) : ∀ a : Nat, a ≤ l.foldl max a := by
  induction l with
  | nil => intro a; simp
  | cons x xs ih =>
    intro a
    simpa using le_trans (le_max_left a x) (ih (max a x))

lemma mem_le_foldl_max (l : List Nat) :
    ∀ (a x : Nat), x ∈ l → x ≤ l.foldl max a := by
  induction l with
  | nil => intro a x h; cases h
  | cons y ys ih =>
    intro a x h
    rcases List.mem_cons.mp h with rfl | h
    · simpa using le_trans (le_max_right a x) (le_foldl_max ys (max a x))
    · simpa using ih (max a y) x h

lemma foldl_max_eq_or_mem (l : List Nat) :
    ∀ a, l.foldl max a = a ∨ l.foldl max a ∈ l := by
  induction l with
  | nil => intro a; left; rfl
  | cons y ys ih =>
    intro a
    rcases ih (max a y) with h | h
    · rcases Nat.le_total a y with hay | hya
      · right
        rw [List.foldl_cons, h, max_eq_right hay]
        exact List.mem_cons_self _ _
      · left
        rw [List.foldl_cons, h, max_eq_left hya]
    · right
      rw [List.foldl_cons]
      exact List.mem_cons_of_mem _ h

lemma listMax_mem {l : List Nat} (h : l ≠ []) : listMax l ∈ l := by
  rcases foldl_max_eq_or_mem l 0 with h0 | h0
  · obtain ⟨x, xs, rfl⟩ := List.exists_cons_of_ne_nil h
    have hx : x ≤ listMax (x :: xs) :=
      mem_le_foldl_max _ 0 x (List.mem_cons_self _ _)
    have : listMax (x :: xs) = 0 := h0
    have hx0 : x = 0 := by omega
    rw [this, ← hx0]
    exact List.mem_cons_self _ _
  · exact h0

lemma le_listMax {l : List Nat} {x : Nat} (h : x ∈ l) : x ≤ listMax l :=
  mem_le_foldl_max l 0 x h

lemma mem_sortDesc {l : List Nat} {x : Nat} : x ∈ sortDesc l ↔ x ∈ l :=
  (List.perm_insertionSort _ l).mem_iff

/-- The small-maximum rescan of lines 77-83 is vacuous: whenever candidates
exist the branch returns exactly `max(candidates)`. -/
lemma priceFromCandidates_eq_max {cands : List Nat} (h : cands ≠ []) :
    priceFromCandidates cands = some (listMax cands) := by
  unfold priceFromCandidates
  by_cases hc : listMax cands < 1000 ∧ 1 < cands.length
  · rw [if_pos hc]
    have hnone : (sortDesc cands).find? (fun x => decide (1000 ≤ x)) = none := by
      rw [List.find?_eq_none]
      intro x hx
      have : x ≤ listMax cands := le_listMax (mem_sortDesc.mp hx)
      simpa using by omega
    rw [hnone]
    have hs : sortDesc cands ≠ [] := by
      intro hnil
      apply h
      have := (List.perm_insertionSort (· ≥ ·) cands).symm
      rw [sortDesc] at hnil
      rw [hnil] at this
      exact this.eq_nil
    obtain ⟨hd, tl, hcons⟩ := List.exists_cons_of_ne_nil hs
    rw [hcons]
    have hhd_mem : hd ∈ cands := by
      rw [← mem_sortDesc, hcons]
      exact List.mem_cons_self _ _
    have h1 : hd ≤ listMax cands := le_listMax hhd_mem
    have hsorted : (sortDesc cands).Sorted (· ≥ ·) :=
      List.sorted_insertionSort _ _
    have h2 : listMax cands ≤ hd := by
      have hmax_mem : listMax cands ∈ sortDesc cands :=
        mem_sortDesc.mpr (listMax_mem h)
      rw [hcons] at hmax_mem hsorted
      rcases List.mem_cons.mp hmax_mem with heq | hmem
      · omega
      · exact List.rel_of_sorted_cons hsorted _ hmem
    have : hd = listMax cands := le_antisymm h1 h2
    simp [this]
  · rw [if_neg hc]

end Drom

namespace Drom

lemma priceNormalize_empty : priceNormalize "" = [] := rfl

/-- C3 (amended): in the src/parser/parser_mod.py revision, a text whose
numeric tokens clean to exactly `[2018]` yields `None` (the unknown
sentinel), and in general year-like tokens (1900-2099) are excluded and
the maximum of the remaining numeric tokens is returned.  (The src/parser.py
revision has no year filtering; see the counterexample.) -/
theorem price_year_exclusion :
    (∀ t : String,
      cleanedNumsOf (numRuns (priceNormalize t)) = [2018] →
      parsePriceMod t = none) ∧
    (∀ t : String,
      negotiablePhrase (priceNormalize t) = false →
      yearCandidates (cleanedNumsOf (numRuns (priceNormalize t))) ≠ [] →
      parsePriceMod t =
        some (listMax (yearCandidates (cleanedNumsOf (numRuns (priceNormalize t))))) ∧
      listMax (yearCandidates (cleanedNumsOf (numRuns (priceNormalize t)))) ∈
        yearCandidates (cleanedNumsOf (numRuns (priceNormalize t))) ∧
      (∀ x ∈ yearCandidates (cleanedNumsOf (numRuns (priceNormalize t))),
        x ≤ listMax (yearCandidates (cleanedNumsOf (numRuns (priceNormalize t)))))) := by
  constructor
  · intro t h
    have ht : t ≠ "" := by
      intro h0
      subst h0
      rw [priceNormalize_empty] at h
      exact absurd h (by decide)
    have hruns : numRuns (priceNormalize t) ≠ [] := by
      intro h0
      rw [h0] at h
      exact absurd h (by decide)
    unfold parsePriceMod
    rw [if_neg ht]
    by_cases hneg : negotiablePhrase (priceNormalize t)
    · rw [if_pos hneg]
    · rw [if_neg hneg, if_neg hruns, h]
      have hcand : yearCandidates [2018] = [] := by decide
      rw [hcand, if_pos rfl]
      decide
  · intro t hneg hcand
    have hruns : numRuns (priceNormalize t) ≠ [] := by
      intro h0
      apply hcand
      rw [h0]
      decide
    have ht : t ≠ "" := by
      intro h0
      subst h0
      exact hruns (by decide)
    refine ⟨?_, listMax_mem hcand, fun x hx => le_listMax hx⟩
    unfold parsePriceMod
    rw [if_neg ht, if_neg (by simpa using hneg), if_neg hruns, if_neg hcand]
    exact priceFromCandidates_eq_max hcand

/-- Witness for C3's clauses at concrete inputs: a page text whose only
numeric token is `2018` maps to `None`, and one with a price next to a
year keeps the price. -/
theorem price_year_exclusion_witness :
    parsePriceMod "2018" = none ∧
    parsePriceMod "2018 г., 1 250 000 руб." =
      some (listMax (yearCandidates (cleanedNumsOf (numRuns
        (priceNormalize "2018 г., 1 250 000 руб."))))) ∧
    listMax (yearCandidates (cleanedNumsOf (numRuns
      (priceNormalize "2018 г., 1 250 000 руб.")))) = 1250000 :=
  ⟨price_year_exclusion.1 "2018" (by decide),
   (price_year_exclusion.2 "2018 г., 1 250 000 руб." (by decide) (by decide)).1,
   by decide⟩

/-- Counterexample to C3 as stated: the src/parser.py revision of price
extraction parses `"2018"` to the integer 2018, not the unknown sentinel
(it has no year exclusion and takes the first numeric run). -/
theorem price_year_exclusion_counterexample :
    (parsePricePy "2018").2 = some 2018 := by decide

end Drom

namespace Drom

/-! ### `_ensure_text_bytes` (src/parser.py:21-36, src/parser/parser_mod.py:22-41) -/

/-- Codepoints of the cp1251 upper half `0x80`-`0xBF` (the `0x98` slot is
undefined in cp1251 and handled separately). -/
def cp1251High : List Nat :=
  [0x0402, 0x0403, 0x201A, 0x0453, 0x201E, 0x2026, 0x2020, 0x2021,
   0x20AC, 0x2030, 0x0409, 0x2039, 0x040A, 0x040C, 0x040B, 0x040F,
   0x0452, 0x2018, 0x2019, 0x201C, 0x201D, 0x2022, 0x2013, 0x2014,
   0x0000, 0x2122, 0x0459, 0x203A, 0x045A, 0x045C, 0x045B, 0x045F,
   0x00A0, 0x040E, 0x045E, 0x0408, 0x00A4, 0x0490, 0x00A6, 0x00A7,
   0x0401, 0x00A9, 0x0404, 0x00AB, 0x00AC, 0x00AD, 0x00AE, 0x0407,
   0x00B0, 0x00B1, 0x0406, 0x0456, 0x0491, 0x00B5, 0x00B6, 0x00B7,
   0x0451, 0x2116, 0x0454, 0x00BB, 0x0458, 0x0405, 0x0455, 0x0457]

/-- The cp1251 codec: every byte maps to a character except `0x98`. -/
def cp1251Char (b : Nat) : Option Char :=
  if b < 0x80 then some (Char.ofNat b)
  else if b = 0x98 then none
  else if b ≤ 0xBF then (cp1251High[b - 0x80]?).map Char.ofNat
  else if b ≤ 0xFF then some (Char.ofNat (0x410 + (b - 0xC0)))
  else none

/-- `bytes.decode("cp1251", errors="replace")`. -/
def cp1251DecodeReplace (bs : List Nat) : List Char :=
  bs.map (fun b => (cp1251Char b).getD (Char.ofNat 0xFFFD))

/-- `bytes.decode("cp1251", errors="ignore")`. -/
def cp1251DecodeIgnore (bs : List Nat) : List Char :=
  bs.filterMap cp1251Char

/-- Strict cp1251 decoding: fails on any undefined byte. -/
def cp1251DecodeStrict : List Nat → Option (List Char)
  | [] => some []
  | b :: bs =>
    match cp1251Char b, cp1251DecodeStrict bs with
    | some c, some cs => some (c :: cs)
    | _, _ => none

/-- `bytes.decode("latin1", errors="ignore")` (latin-1 is total on bytes). -/
def latin1DecodeIgnore (bs : List Nat) : List Char :=
  bs.filterMap (fun b => if b ≤ 0xFF then some (Char.ofNat b) else none)

def utf8Cont (b : Nat) : Bool := 0x80 ≤ b ∧ b ≤ 0xBF

/-- `bytes.decode("utf-8", errors="strict")`: `none` models the raised
`UnicodeDecodeError` (overlong forms, surrogates and out-of-range lead
bytes rejected as CPython does). -/
def utf8DecodeStrict : List Nat → Option (List Char)
  | [] => some []
  | b :: rest =>
    if b < 0x80 then (utf8DecodeStrict rest).map (fun cs => Char.ofNat b :: cs)
    else if b < 0xC2 then none
    else if b < 0xE0 then
      match rest with
      | b2 :: t =>
        if utf8Cont b2 then
          (utf8DecodeStrict t).map
            (fun cs => Char.ofNat ((b - 0xC0) * 0x40 + (b2 - 0x80)) :: cs)
        else none
      | [] => none
    else if b < 0xF0 then
      match rest with
      | b2 :: b3 :: t =>
        if utf8Cont b2 ∧ utf8Cont b3 ∧ (b ≠ 0xE0 ∨ 0xA0 ≤ b2) ∧ (b ≠ 0xED ∨ b2 < 0xA0) then
          (utf8DecodeStrict t).map
            (fun cs => Char.ofNat ((b - 0xE0) * 0x1000 + (b2 - 0x80) * 0x40 + (b3 - 0x80)) :: cs)
        else none
      | _ => none
    else if b < 0xF5 then
      match rest with
      | b2 :: b3 :: b4 :: t =>
        if utf8Cont b2 ∧ utf8Cont b3 ∧ utf8Cont b4 ∧
            (b ≠ 0xF0 ∨ 0x90 ≤ b2) ∧ (b ≠ 0xF4 ∨ b2 < 0x90) then
          (utf8DecodeStrict t).map
            (fun cs => Char.ofNat ((b - 0xF0) * 0x40000 + (b2 - 0x80) * 0x1000 +
              (b3 - 0x80) * 0x40 + (b4 - 0x80)) :: cs)
        else none
      | _ => none
    else none

/-- `bytes.decode("utf-8", errors="replace")`: invalid subsequences become
`U+FFFD`, scanning resuming at the first byte not part of a maximal valid
prefix (CPython's replacement policy). -/
def utf8DecodeReplace : List Nat → List Char
  | [] => []
  | b :: rest =>
    if b < 0x80 then Char.ofNat b :: utf8DecodeReplace rest
    else if b < 0xC2 then Char.ofNat 0xFFFD :: utf8DecodeReplace rest
    else if b < 0xE0 then
      match rest with
      | b2 :: t =>
        if utf8Cont b2 then Char.ofNat ((b - 0xC0) * 0x40 + (b2 - 0x80)) :: utf8DecodeReplace t
        else Char.ofNat 0xFFFD :: utf8DecodeReplace (b2 :: t)
      | [] => [Char.ofNat 0xFFFD]
    else if b < 0xF0 then
      match rest with
      | [] => [Char.ofNat 0xFFFD]
      | b2 :: t =>
        if utf8Cont b2 ∧ (b ≠ 0xE0 ∨ 0xA0 ≤ b2) ∧ (b ≠ 0xED ∨ b2 < 0xA0) then
          match t with
          | [] => [Char.ofNat 0xFFFD]
          | b3 :: t2 =>
            if utf8Cont b3 then
              Char.ofNat ((b - 0xE0) * 0x1000 + (b2 - 0x80) * 0x40 + (b3 - 0x80)) ::
                utf8DecodeReplace t2
            else Char.ofNat 0xFFFD :: utf8DecodeReplace (b3 :: t2)
        else Char.ofNat 0xFFFD :: utf8DecodeReplace (b2 :: t)
    else if b < 0xF5 then
      match rest with
      | [] => [Char.ofNat 0xFFFD]
      | b2 :: t =>
        if utf8Cont b2 ∧ (b ≠ 0xF0 ∨ 0x90 ≤ b2) ∧ (b ≠ 0xF4 ∨ b2 < 0x90) then
          match t with
          | [] => [Char.ofNat 0xFFFD]
          | b3 :: t2 =>
            if utf8Cont b3 then
              match t2 with
              | [] => [Char.ofNat 0xFFFD]
              | b4 :: t3 =>
                if utf8Cont b4 then
                  Char.ofNat ((b - 0xF0) * 0x40000 + (b2 - 0x80) * 0x1000 +
                    (b3 - 0x80) * 0x40 + (b4 - 0x80)) :: utf8DecodeReplace t3
                else Char.ofNat 0xFFFD :: utf8DecodeReplace (b4 :: t3)
            else Char.ofNat 0xFFFD :: utf8DecodeReplace (b3 :: t2)
        else Char.ofNat 0xFFFD :: utf8DecodeReplace (b2 :: t)
    else Char.ofNat 0xFFFD :: utf8DecodeReplace rest

/-- `headers.get(key, "")` on a Python `dict` (exact key match; both
resolvers receive their headers through a `dict`-typed parameter). -/
def dictGet (headers : List (String × String)) (k : String) : Option String :=
  headers.lookup k

/-- `_ensure_text_bytes` of src/parser.py: exact-key `content-type` header
sniff for cp1251 (decode with `errors="replace"`), else a latin-1 snippet
sniff of the first 2000 bytes, else strict utf-8 falling back to utf-8
with replacement. -/
def ensureTextBytesPy (content : List Nat) (headers : List (String × String)) :
    List Char :=
  if containsSub "windows-1251".data
      (pyLower ((dictGet headers "content-type").getD "").data) ||
     containsSub "cp1251".data
      (pyLower ((dictGet headers "content-type").getD "").data) then
    cp1251DecodeReplace content
  else
    if containsSub "charset=windows-1251".data
        (pyLower (latin1DecodeIgnore (content.take 2000))) then
      cp1251DecodeReplace content
    else
      match utf8DecodeStrict content with
      | some s => s
      | none => utf8DecodeReplace content

/-- `_ensure_text_bytes` of src/parser/parser_mod.py: exact-key
`content-type` sniff for cp1251 (decode with `errors="ignore"`), else
strict utf-8, else latin-1 with ignored errors. -/
def ensureTextBytesMod (content : List Nat) (headers : List (String × String)) :
    List Char :=
  if containsSub "charset=windows-1251".data
      (pyLower ((dictGet headers "content-type").getD "").data) ||
     containsSub "cp1251".data
      (pyLower ((dictGet headers "content-type").getD "").data) ||
     containsSub "windows-1251".data
      (pyLower ((dictGet headers "content-type").getD "").data) then
    cp1251DecodeIgnore content
  else
    match utf8DecodeStrict content with
    | some s => s
    | none => latin1DecodeIgnore content

set_option maxRecDepth 4000 in
lemma cp1251Char_isSome {b : Nat} (h1 : b < 256) (h2 : b ≠ 0x98) :
    (cp1251Char b).isSome := by
  unfold cp1251Char
  by_cases hb0 : b < 0x80
  · simp [hb0]
  · rw [if_neg hb0, if_neg h2]
    by_cases hb1 : b ≤ 0xBF
    · rw [if_pos hb1]
      have hidx : b - 0x80 < cp1251High.length := by
        have : cp1251High.length = 64 := by decide
        omega
      rw [List.getElem?_eq_getElem hidx]
      simp
    · rw [if_neg hb1, if_pos (by omega)]
      simp

lemma cp1251_decodes_agree {content : List Nat}
    (h : ∀ b ∈ content, b < 256 ∧ b ≠ 0x98) :
    cp1251DecodeStrict content = some (cp1251DecodeReplace content) ∧
    cp1251DecodeIgnore content = cp1251DecodeReplace content := by
  induction content with
  | nil => exact ⟨rfl, rfl⟩
  | cons b bs ih =>
    have hb := h b (List.mem_cons_self _ _)
    have hbs : ∀ x ∈ bs, x < 256 ∧ x ≠ 0x98 :=
      fun x hx => h x (List.mem_cons_of_mem _ hx)
    obtain ⟨c, hc⟩ := Option.isSome_iff_exists.mp (cp1251Char_isSome hb.1 hb.2)
    obtain ⟨ih1, ih2⟩ := ih hbs
    constructor
    · simp [cp1251DecodeStrict, hc, ih1, cp1251DecodeReplace]
    · show (b :: bs).filterMap cp1251Char = _
      simp only [List.filterMap_cons, hc, cp1251DecodeReplace, List.map_cons,
        Option.getD_some]
      exact congrArg (c :: ·) ih2

end Drom

namespace Drom

/-- C5 (amended): when the header map holds the exact lowercase key
`content-type` — the key the `headers.get("content-type", "")` lookup in
both resolvers actually uses on their `dict`-typed argument — with a value
declaring `windows-1251`/`cp1251`, both resolvers decode the body with
cp1251, and on bodies free of the cp1251-undefined byte `0x98` the output
equals the strict cp1251 decoding of the same bytes (src/parser.py uses
`errors="replace"`, src/parser/parser_mod.py `errors="ignore"`; the two
coincide on such bodies).  A conventionally cased `Content-Type` entry is
missed by the exact-key lookup (see the counterexample). -/
theorem encoding_cp1251_header (content : List Nat)
    (headers : List (String × String)) (ct : String)
    (hct : dictGet headers "content-type" = some ct)
    (hdecl : containsSub "windows-1251".data (pyLower ct.data) = true ∨
             containsSub "cp1251".data (pyLower ct.data) = true)
    (hbytes : ∀ b ∈ content, b < 256 ∧ b ≠ 0x98) :
    cp1251DecodeStrict content = some (ensureTextBytesPy content headers) ∧
    cp1251DecodeStrict content = some (ensureTextBytesMod content headers) := by
  obtain ⟨hstrict, hagree⟩ := cp1251_decodes_agree hbytes
  have hpy : ensureTextBytesPy content headers = cp1251DecodeReplace content := by
    unfold ensureTextBytesPy
    rw [hct]
    rcases hdecl with h | h <;> simp [h]
  have hmod : ensureTextBytesMod content headers = cp1251DecodeIgnore content := by
    unfold ensureTextBytesMod
    rw [hct]
    rcases hdecl with h | h <;> simp [h]
  rw [hpy, hmod, hagree]
  exact ⟨hstrict, hstrict⟩

/-- Witness for C5 (amended) at a concrete cp1251 body (`"Привет"`) and a
lowercase-keyed header map. -/
theorem encoding_cp1251_header_witness :
    cp1251DecodeStrict [0xCF, 0xF0, 0xE8, 0xE2, 0xE5, 0xF2] =
      some (ensureTextBytesPy [0xCF, 0xF0, 0xE8, 0xE2, 0xE5, 0xF2]
        [("content-type", "text/html; charset=windows-1251")]) ∧
    ensureTextBytesPy [0xCF, 0xF0, 0xE8, 0xE2, 0xE5, 0xF2]
      [("content-type", "text/html; charset=windows-1251")] = "Привет".data :=
  ⟨(encoding_cp1251_header [0xCF, 0xF0, 0xE8, 0xE2, 0xE5, 0xF2]
      [("content-type", "text/html; charset=windows-1251")]
      "text/html; charset=windows-1251" (by decide)
      (Or.inl (by decide)) (by decide)).1,
   by decide⟩

/-- Counterexample to C5 as stated: a header map whose `Content-Type`
entry (conventional HTTP casing) declares windows-1251 is not recognized
by src/parser.py's resolver, which then decodes the cp1251 byte `0xCF`
(`П`) as a utf-8 failure replacement instead. -/
theorem encoding_cp1251_header_counterexample :
    dictGet [("Content-Type", "text/html; charset=windows-1251")]
        "Content-Type" = some "text/html; charset=windows-1251" ∧
    ensureTextBytesPy [0xCF]
        [("Content-Type", "text/html; charset=windows-1251")] =
      [Char.ofNat 0xFFFD] ∧
    cp1251DecodeReplace [0xCF] = ['П'] ∧
    ensureTextBytesPy [0xCF]
        [("Content-Type", "text/html; charset=windows-1251")] ≠
      cp1251DecodeReplace [0xCF] := by decide

end Drom

namespace Drom

/-! ### `_norm_key` / `_parse_kv_pairs`
(src/parser.py:92-134, src/parser/parser_mod.py:149-184) -/

/-- The `[\s\: ]+` class of `_norm_key`. -/
def isKeyJunk (c : Char) : Bool := isPySpace c || c = ':'

/-- `_norm_key`: `""` for falsy input, else strip, lower-case, and collapse
whitespace/colon runs to single spaces. -/
def normKey (k : String) : String :=
  if k = "" then ""
  else String.mk (collapseRuns isKeyJunk false (pyLower (pyStrip k.data)))

/-- A `<dt>` element's text paired with the text of its next `<dd>`
sibling, when one exists. -/
structure DtEntry where
  text : String
  dd : Option String

/-- The structured-markup query results `_parse_kv_pairs` of src/parser.py
walks, in document order: `dt` elements (with `dd` siblings), the `th`/`td`
cell texts of each `tr`, the texts of inline tags (`strong, b, span`), and
the texts of `li` elements. -/
structure KvInput where
  dts : List DtEntry
  trs : List (List String)
  inlines : List String
  lis : List String

/-- `dict.setdefault(k, v)` on an insertion-ordered association list. -/
def kvSetdefault (kv : List (String × String)) (k v : String) :
    List (String × String) :=
  if (kv.lookup k).isSome then kv else kv ++ [(k, v)]

/-- `dict[k] = v`: overwrite the binding in place, else append. -/
def kvSet (kv : List (String × String)) (k v : String) :
    List (String × String) :=
  if (kv.lookup k).isSome then
    kv.map (fun p => if p.1 == k then (p.1, v) else p)
  else kv ++ [(k, v)]

/-- Stage (a) of src/parser.py `_parse_kv_pairs`: `dt`/`dd` pairs,
inserted when the `dd` exists and the normalized key is nonempty. -/
def dtCandidatesPy (dts : List DtEntry) : List (String × String) :=
  dts.filterMap (fun d =>
    match d.dd with
    | some v => if normKey d.text ≠ "" then some (normKey d.text, v) else none
    | none => none)

/-- Stage (b): table rows with at least two `th`/`td` cells. -/
def trCandidatesPy (trs : List (List String)) : List (String × String) :=
  trs.filterMap (fun cells =>
    match cells with
    | c0 :: c1 :: _ => if normKey c0 ≠ "" then some (normKey c0, c1) else none
    | _ => none)

/-- Stages (c)/(d): colon-separated element text,
`k, v = map(str.strip, txt.split(":", 1))`, key then normalized (no
emptiness check on these stages). -/
def colonCandidates (texts : List String) : List (String × String) :=
  texts.filterMap (fun txt =>
    if txt.data.contains ':' then
      some (normKey (String.mk (pyStrip (splitOnceColon txt.data).1)),
            String.mk (pyStrip (splitOnceColon txt.data).2))
    else none)

/-- All key/value candidates of src/parser.py's `_parse_kv_pairs` in its
fixed scan order: definition lists, then table rows, then inline tags,
then list items. -/
def candidatesPy (inp : KvInput) : List (String × String) :=
  dtCandidatesPy inp.dts ++ trCandidatesPy inp.trs ++
    colonCandidates inp.inlines ++ colonCandidates inp.lis

/-- `_parse_kv_pairs` of src/parser.py: four passes over the page, each
inserting with `setdefault` (insert-if-absent). -/
def parseKvPairsPy (inp : KvInput) : List (String × String) :=
  (colonCandidates inp.lis).foldl (fun m p => kvSetdefault m p.1 p.2)
    ((colonCandidates inp.inlines).foldl (fun m p => kvSetdefault m p.1 p.2)
      ((trCandidatesPy inp.trs).foldl (fun m p => kvSetdefault m p.1 p.2)
        ((dtCandidatesPy inp.dts).foldl (fun m p => kvSetdefault m p.1 p.2) [])))

/-- The query results src/parser/parser_mod.py's `_parse_kv_pairs` walks:
`dt`/`dd`, table rows, and the texts of `li, p, span` elements. -/
structure KvInputMod where
  dts : List DtEntry
  trs : List (List String)
  texts : List String

/-- `_parse_kv_pairs` of src/parser/parser_mod.py: the `dt`/`dd` stage and
the table stage assign unconditionally (`kv[key] = val`, overwriting any
earlier binding); only the `li, p, span` stage inserts-if-absent. -/
def parseKvPairsMod (inp : KvInputMod) : List (String × String) :=
  inp.texts.foldl (fun m txt =>
    if txt.data.contains ':' then
      if normKey (String.mk (splitOnceColon txt.data).1) ≠ "" ∧
          (m.lookup (normKey (String.mk (splitOnceColon txt.data).1))).isNone then
        m ++ [(normKey (String.mk (splitOnceColon txt.data).1),
               String.mk (pyStrip (splitOnceColon txt.data).2))]
      else m
    else m)
    (inp.trs.foldl (fun m cells =>
      match cells with
      | c0 :: c1 :: _ => if normKey c0 ≠ "" then kvSet m (normKey c0) c1 else m
      | _ => m)
      (inp.dts.foldl (fun m d =>
        if normKey d.text ≠ "" then kvSet m (normKey d.text) (d.dd.getD "") else m)
        []))

/-- First-of-two-options helper (for stating `dict` lookup against a
candidate stream). -/
def optOr (a b : Option String) : Option String :=
  match a with
  | some x => some x
  | none => b

lemma lookup_append_single (kv : List (String × String)) (k k' v' : String) :
    (kv ++ [(k', v')]).lookup k =
      optOr (kv.lookup k) (if k == k' then some v' else none) := by
  induction kv with
  | nil =>
    cases h : k == k' <;> simp [List.lookup, h, optOr]
  | cons p ps ih =>
    obtain ⟨pk, pv⟩ := p
    cases h : k == pk
    · have l1 : List.lookup k (((pk, pv) :: ps) ++ [(k', v')]) =
          List.lookup k (ps ++ [(k', v')]) := by
        simp [List.lookup, h]
      have l2 : List.lookup k ((pk, pv) :: ps) = List.lookup k ps := by
        simp [List.lookup, h]
      rw [l1, l2, ih]
    · simp [List.lookup, h, optOr]

lemma lookup_foldl_setdefault (cands : List (String × String)) :
    ∀ (kv : List (String × String)) (k : String),
      (cands.foldl (fun m p => kvSetdefault m p.1 p.2) kv).lookup k =
        optOr (kv.lookup k) ((cands.find? (fun p => p.1 == k)).map Prod.snd) := by
  induction cands with
  | nil =>
    intro kv k
    cases h : kv.lookup k <;> simp [h, optOr]
  | cons c cs ih =>
    intro kv k
    by_cases hpres : (kv.lookup c.1).isSome
    · have hstep : kvSetdefault kv c.1 c.2 = kv := by
        unfold kvSetdefault
        rw [if_pos hpres]
      simp only [List.foldl_cons]
      rw [hstep, ih kv k]
      by_cases hck : c.1 == k
      · have hc1 : c.1 = k := by simpa using hck
        have hsome : (kv.lookup k).isSome := hc1 ▸ hpres
        obtain ⟨v, hv⟩ := Option.isSome_iff_exists.mp hsome
        simp [List.find?, hck, hv, optOr]
      · have hck' : (c.1 == k) = false := by simpa using hck
        simp [List.find?, hck']
    · have hstep : kvSetdefault kv c.1 c.2 = kv ++ [(c.1, c.2)] := by
        unfold kvSetdefault
        rw [if_neg hpres]
      simp only [List.foldl_cons]
      rw [hstep, ih _ k, lookup_append_single]
      have hnone : kv.lookup c.1 = none := Option.not_isSome_iff_eq_none.mp hpres
      by_cases hck : c.1 == k
      · have hc1 : c.1 = k := by simpa using hck
        have hkv : kv.lookup k = none := hc1 ▸ hnone
        have hkc : (k == c.1) = true := by simp [hc1]
        simp [hkv, hkc, List.find?, hck, optOr]
      · have hck' : (c.1 == k) = false := by simpa using hck
        have hkc : (k == c.1) = false := by
          simp only [beq_eq_false_iff_ne] at *
          exact fun h => hck' h.symm
        cases h : kv.lookup k <;> simp [h, hkc, List.find?, hck', optOr]

end Drom

namespace Drom

lemma optOr_assoc (a b c : Option String) :
    optOr (optOr a b) c = optOr a (optOr b c) := by
  cases a <;> rfl

lemma find?_append_map (l1 l2 : List (String × String)) (k : String) :
    ((l1 ++ l2).find? (fun p => p.1 == k)).map Prod.snd =
      optOr ((l1.find? (fun p => p.1 == k)).map Prod.snd)
            ((l2.find? (fun p => p.1 == k)).map Prod.snd) := by
  induction l1 with
  | nil =>
    cases h : (l2.find? (fun p => p.1 == k)).map Prod.snd <;> simp [h, optOr]
  | cons c cs ih =>
    by_cases hck : c.1 == k
    · simp [List.find?, hck, optOr]
    · have hck' : (c.1 == k) = false := by simpa using hck
      simp only [List.cons_append, List.find?, hck']
      cases h : List.find? (fun p => p.1 == k) cs <;> simp [h, optOr]

/-- C4 (amended): src/parser.py's `_parse_kv_pairs` builds the KeyValueMap
first-seen-wins over its fixed scan order (definition-list pairs, then
table rows, then colon-separated inline text, then list items): the value
looked up for any normalized key is exactly the value of the first
candidate with that key, so later candidates never overwrite it.  (The
src/parser/parser_mod.py revision instead overwrites in its
definition-list and table stages; see the counterexample.) -/
theorem kv_first_seen_wins (inp : KvInput) (k : String) :
    (parseKvPairsPy inp).lookup k =
      ((candidatesPy inp).find? (fun p => p.1 == k)).map Prod.snd := by
  unfold parseKvPairsPy candidatesPy
  rw [lookup_foldl_setdefault, lookup_foldl_setdefault, lookup_foldl_setdefault,
      lookup_foldl_setdefault]
  have hnil : List.lookup k ([] : List (String × String)) = none := rfl
  rw [hnil]
  rw [show ∀ b, optOr none b = b from fun b => rfl]
  rw [find?_append_map, find?_append_map, find?_append_map]

/-- Two definition-list entries normalizing to the same key, as they reach
src/parser/parser_mod.py's `_parse_kv_pairs`. -/
def kvOverwriteInput : KvInputMod :=
  ⟨[⟨"Привод", some "передний"⟩, ⟨"Привод", some "задний"⟩], [], []⟩

/-- Counterexample to C4 as stated: in src/parser/parser_mod.py's
`_parse_kv_pairs`, the later of two definition-list candidates with the
same normalized key overwrites the earlier one's value. -/
theorem kv_first_seen_counterexample :
    normKey "Привод" = "привод" ∧
    (parseKvPairsMod kvOverwriteInput).lookup "привод" = some "задний" ∧
    (parseKvPairsMod kvOverwriteInput).lookup "привод" ≠ some "передний" := by
  decide

end Drom

namespace Drom

/-! ### `_extract_equipment`
(src/parser.py:137-163, src/parser/parser_mod.py:187-200) -/

/-- A heading (`h1`-`h6`) of the detail page with the query results
src/parser.py's `_extract_equipment` uses: its text, the `li` texts of its
next `ul`/`ol` sibling when one exists, and the texts of its following
siblings up to the next heading. -/
structure Heading where
  text : String
  ulItems : Option (List String)
  sibTexts : List String

/-- The sibling-text-block branch of the heading loop:
`" ".join(txt_block).strip()`, whitespace runs collapsed, returned capped
to 2000 characters when nonempty. -/
def equipTextBlockPy (h : Heading) : Option String :=
  if h.sibTexts = [] then none
  else
    if collapseRuns isPySpace false
        (pyStrip (joinSep " ".data (h.sibTexts.map String.data))) = [] then none
    else
      some (String.mk ((collapseRuns isPySpace false
        (pyStrip (joinSep " ".data (h.sibTexts.map String.data)))).take 2000))

/-- One iteration of src/parser.py's heading loop: for a heading matching
`комплектац`, the `ul`/`ol` list-items branch returns the `"; "`-join of
the items (no cap), else the sibling text block (capped). -/
def equipFromHeadingPy (h : Heading) : Option String :=
  if containsCI "комплектац" h.text then
    match h.ulItems with
    | some items =>
      if items ≠ [] then
        some (String.mk (joinSep "; ".data (items.map String.data)))
      else equipTextBlockPy h
    | none => equipTextBlockPy h
  else none

/-- Just the (uncapped) list-items branch of `equipFromHeadingPy`. -/
def equipItemsBranch (h : Heading) : Option String :=
  if containsCI "комплектац" h.text then
    match h.ulItems with
    | some items =>
      if items ≠ [] then
        some (String.mk (joinSep "; ".data (items.map String.data)))
      else none
    | none => none
  else none

/-- The `[:\s\-–—]` class of the page-wide equipment regex. -/
def isEquipSep (c : Char) : Bool :=
  c = ':' || isPySpace c || c = '-' || c = '–' || c = '—'

/-- `Комплектация[:\s\-–—]{0,3}([^\n]{5,2000})` tried at one position with
`sepLen` separator characters consumed: the capture is the greedy
non-newline run after them, truncated to 2000, matching only if ≥ 5. -/
def equipCapture (rest : List Char) (sepLen : Nat) : Option (List Char) :=
  if (rest.take sepLen).length = sepLen ∧ (rest.take sepLen).all isEquipSep then
    if 5 ≤ (((rest.drop sepLen).takeWhile (fun c => c ≠ '\n')).take 2000).length then
      some (((rest.drop sepLen).takeWhile (fun c => c ≠ '\n')).take 2000)
    else none
  else none

/-- The equipment regex tried at the current position (separator count
matched greedily, 3 down to 0). -/
def equipRegexHere (cs : List Char) : Option (List Char) :=
  if ("комплектация".data).isPrefixOf (pyLower cs) then
    (equipCapture (cs.drop 12) 3).orElse fun _ =>
      (equipCapture (cs.drop 12) 2).orElse fun _ =>
        (equipCapture (cs.drop 12) 1).orElse fun _ => equipCapture (cs.drop 12) 0
  else none

/-- Leftmost match of the page-wide equipment regex (`re.search`). -/
def equipRegexSearch : List Char → Option (List Char)
  | [] => none
  | c :: rest => (equipRegexHere (c :: rest)).orElse fun _ => equipRegexSearch rest

/-- `re.split(r'[;,]\s*', s)`: split at `;`/`,`, consuming following
whitespace (state `skip` true while inside a delimiter's trailing
whitespace). -/
def splitSCAux (cur : List Char) (skip : Bool) : List Char → List (List Char)
  | [] => [cur.reverse]
  | c :: rest =>
    if skip ∧ isPySpace c then splitSCAux cur true rest
    else if c = ';' ∨ c = ',' then cur.reverse :: splitSCAux [] true rest
    else splitSCAux (c :: cur) false rest

/-- `"; ".join(it.strip() for it in re.split(r'[;,]\s*', cap) if it.strip())[:2000]`. -/
def equipRegexResult (cap : List Char) : List Char :=
  (joinSep "; ".data
    (((splitSCAux [] false cap).map pyStrip).filter (fun x => x ≠ []))).take 2000

/-- `_extract_equipment` of src/parser.py. -/
def extractEquipmentPy (hs : List Heading) (soupText : String) : String :=
  match hs.findSome? equipFromHeadingPy with
  | some s => s
  | none =>
    match equipRegexSearch soupText.data with
    | some cap => String.mk (equipRegexResult cap)
    | none => "N/A"

/-- A heading (`h2`-`h4`) with the text of its next sibling, as queried by
src/parser/parser_mod.py's `_extract_equipment`. -/
structure HeadingMod where
  text : String
  nextSib : Option String

/-- `_extract_equipment` of src/parser/parser_mod.py: a matching heading's
next sibling text (uncapped), else the stripped regex capture, else
`None`. -/
def extractEquipmentMod (hs : List HeadingMod) (soupText : String) : Option String :=
  match hs.findSome? (fun h =>
      if containsCI "комплектац" h.text || containsCI "комплектация" h.text ||
          containsCI "оборудовани" h.text then h.nextSib
      else none) with
  | some s => some s
  | none => (equipRegexSearch soupText.data).map (fun cap => String.mk (pyStrip cap))

lemma findSome?_eq_some {α β : Type} {f : α → Option β} :
    ∀ {l : List α} {b : β}, l.findSome? f = some b → ∃ a ∈ l, f a = some b := by
  intro l
  induction l with
  | nil => intro b h; simp [List.findSome?] at h
  | cons x xs ih =>
    intro b h
    rw [List.findSome?] at h
    cases hx : f x with
    | some v =>
      rw [hx] at h
      exact ⟨x, List.mem_cons_self _ _, hx.trans h⟩
    | none =>
      rw [hx] at h
      obtain ⟨a, ha, hfa⟩ := ih h
      exact ⟨a, List.mem_cons_of_mem _ ha, hfa⟩

lemma pyStrip_length_le (l : List Char) : (pyStrip l).length ≤ l.length := by
  unfold pyStrip
  calc ((l.dropWhile isPySpace).reverse.dropWhile isPySpace).reverse.length
      = ((l.dropWhile isPySpace).reverse.dropWhile isPySpace).length := by
        rw [List.length_reverse]
    _ ≤ (l.dropWhile isPySpace).reverse.length :=
        length_dropWhile_le _ _
    _ = (l.dropWhile isPySpace).length := by rw [List.length_reverse]
    _ ≤ l.length := length_dropWhile_le _ _

lemma equipCapture_length_le {rest : List Char} {n : Nat} {cap : List Char}
    (h : equipCapture rest n = some cap) : cap.length ≤ 2000 := by
  unfold equipCapture at h
  by_cases h1 : (rest.take n).length = n ∧ (rest.take n).all isEquipSep
  · rw [if_pos h1] at h
    by_cases h2 : 5 ≤ (((rest.drop n).takeWhile (fun c => c ≠ '\n')).take 2000).length
    · rw [if_pos h2] at h
      have hcap := Option.some.inj h
      rw [← hcap, List.length_take]
      omega
    · rw [if_neg h2] at h
      exact absurd h (by simp)
  · rw [if_neg h1] at h
    exact absurd h (by simp)

lemma equipRegexHere_length_le {cs cap : List Char}
    (h : equipRegexHere cs = some cap) : cap.length ≤ 2000 := by
  unfold equipRegexHere at h
  by_cases hp : ("комплектация".data).isPrefixOf (pyLower cs)
  · rw [if_pos hp] at h
    rcases h3 : equipCapture (cs.drop 12) 3 with _ | c3
    · rcases h2 : equipCapture (cs.drop 12) 2 with _ | c2
      · rcases h1 : equipCapture (cs.drop 12) 1 with _ | c1
        · rcases h0 : equipCapture (cs.drop 12) 0 with _ | c0
          · simp [h3, h2, h1, h0, Option.orElse] at h
          · simp [h3, h2, h1, h0, Option.orElse] at h
            subst h
            exact equipCapture_length_le h0
        · simp [h3, h2, h1, Option.orElse] at h
          subst h
          exact equipCapture_length_le h1
      · simp [h3, h2, Option.orElse] at h
        subst h
        exact equipCapture_length_le h2
    · simp [h3, Option.orElse] at h
      subst h
      exact equipCapture_length_le h3
  · rw [if_neg hp] at h
    cases h

lemma equipRegexSearch_length_le :
    ∀ {cs cap : List Char}, equipRegexSearch cs = some cap → cap.length ≤ 2000 := by
  intro cs
  induction cs with
  | nil => intro cap h; cases h
  | cons c rest ih =>
    intro cap h
    rw [equipRegexSearch] at h
    rcases hh : equipRegexHere (c :: rest) with _ | v
    · rw [hh] at h
      simp only [Option.orElse] at h
      exact ih h
    · rw [hh] at h
      simp only [Option.orElse] at h
      cases h
      exact equipRegexHere_length_le hh

end Drom

namespace Drom

lemma equipTextBlockPy_length_le {h : Heading} {s : String}
    (hs : equipTextBlockPy h = some s) : s.length ≤ 2000 := by
  unfold equipTextBlockPy at hs
  by_cases h1 : h.sibTexts = []
  · rw [if_pos h1] at hs
    exact absurd hs (by simp)
  · rw [if_neg h1] at hs
    by_cases h2 : collapseRuns isPySpace false
        (pyStrip (joinSep " ".data (h.sibTexts.map String.data))) = []
    · rw [if_pos h2] at hs
      exact absurd hs (by simp)
    · rw [if_neg h2] at hs
      have hcap := Option.some.inj hs
      rw [← hcap]
      show ((collapseRuns isPySpace false
        (pyStrip (joinSep " ".data (h.sibTexts.map String.data)))).take 2000).length ≤ 2000
      rw [List.length_take]
      omega

lemma equipFromHeadingPy_capped {h : Heading} {s : String}
    (hnone : equipItemsBranch h = none) (hsome : equipFromHeadingPy h = some s) :
    s.length ≤ 2000 := by
  unfold equipFromHeadingPy at hsome
  unfold equipItemsBranch at hnone
  by_cases hc : containsCI "комплектац" h.text
  · rw [if_pos hc] at hsome hnone
    rcases hu : h.ulItems with _ | items
    · simp only [hu] at hsome
      exact equipTextBlockPy_length_le hsome
    · simp only [hu] at hsome hnone
      by_cases hi : items ≠ []
      · rw [if_pos hi] at hnone
        exact absurd hnone (by simp)
      · rw [if_neg hi] at hsome
        exact equipTextBlockPy_length_le hsome
  · rw [if_neg hc] at hsome
    exact absurd hsome (by simp)

/-- C8 (amended): every equipment branch except the explicit
equipment-section branch is capped.  When no heading fires the section
branch, src/parser.py's extractor returns a string of at most 2000
characters (including the `N/A` sentinel and the page-wide regex capture),
and src/parser/parser_mod.py's returns `None` or at most 2000 characters;
the section branch itself — the list-items join in src/parser.py and the
heading's next-sibling text in src/parser/parser_mod.py — is returned with
no cap and can exceed 2000 characters (see the counterexample). -/
theorem equipment_length_cap
    (hs : List Heading) (soupText : String)
    (hsM : List HeadingMod) (soupTextM : String)
    (hPy : ∀ h ∈ hs, equipItemsBranch h = none)
    (hM : ∀ h ∈ hsM,
      (containsCI "комплектац" h.text || containsCI "комплектация" h.text ||
        containsCI "оборудовани" h.text) = true → h.nextSib = none) :
    (extractEquipmentPy hs soupText).length ≤ 2000 ∧
    (∀ s, extractEquipmentMod hsM soupTextM = some s → s.length ≤ 2000) := by
  constructor
  · unfold extractEquipmentPy
    rcases hfind : hs.findSome? equipFromHeadingPy with _ | s
    · rcases hreg : equipRegexSearch soupText.data with _ | cap
      · decide
      · show (String.mk (equipRegexResult cap)).length ≤ 2000
        show (equipRegexResult cap).length ≤ 2000
        unfold equipRegexResult
        rw [List.length_take]
        omega
    · obtain ⟨h, hmem, hsome⟩ := findSome?_eq_some hfind
      exact equipFromHeadingPy_capped (hPy h hmem) hsome
  · intro s hsome
    unfold extractEquipmentMod at hsome
    rcases hfind : hsM.findSome? (fun h =>
        if containsCI "комплектац" h.text || containsCI "комплектация" h.text ||
            containsCI "оборудовани" h.text then h.nextSib
        else none) with _ | v
    · rw [hfind] at hsome
      rcases hreg : equipRegexSearch soupTextM.data with _ | cap
      · rw [hreg] at hsome
        exact absurd hsome (by simp)
      · rw [hreg] at hsome
        have hcap := Option.some.inj hsome
        rw [← hcap]
        show (pyStrip cap).length ≤ 2000
        exact le_trans (pyStrip_length_le cap) (equipRegexSearch_length_le hreg)
    · exfalso
      obtain ⟨h, hmem, hv⟩ := findSome?_eq_some hfind
      by_cases hc : (containsCI "комплектац" h.text ||
          containsCI "комплектация" h.text || containsCI "оборудовани" h.text) = true
      · rw [if_pos hc] at hv
        rw [hM h hmem hc] at hv
        exact absurd hv (by simp)
      · rw [if_neg hc] at hv
        exact absurd hv (by simp)

/-- Witness for C8 (amended) on a page whose equipment comes from the
page-wide regex branch. -/
theorem equipment_length_cap_witness :
    (extractEquipmentPy [⟨"Характеристики", none, []⟩]
      "Комплектация: кондиционер, ABS, подогрев сидений").length ≤ 2000 ∧
    (extractEquipmentPy [⟨"Характеристики", none, []⟩]
      "Комплектация: кондиционер, ABS, подогрев сидений") =
      "кондиционер; ABS; подогрев сидений" :=
  ⟨(equipment_length_cap [⟨"Характеристики", none, []⟩]
      "Комплектация: кондиционер, ABS, подогрев сидений" [] ""
      (by decide) (by decide)).1,
   by decide⟩

def longEquipItem : String := String.mk (List.replicate 2500 'о')

def equipLongInput : List Heading := [⟨"Комплектация", some [longEquipItem], []⟩]

/-- Counterexample to C8 as stated: a detail page whose equipment section
holds one 2500-character list item makes src/parser.py's list-items branch
return 2500 characters — beyond the claimed 2000-character cap. -/
theorem equipment_length_cap_counterexample :
    extractEquipmentPy equipLongInput "" = longEquipItem ∧
    2000 < (extractEquipmentPy equipLongInput "").length := by
  have h1 : extractEquipmentPy equipLongInput "" = longEquipItem := rfl
  refine ⟨h1, ?_⟩
  rw [h1]
  have h2 : longEquipItem.length = 2500 := by
    show (List.replicate 2500 'о').length = 2500
    rw [List.length_replicate]
  omega

end Drom

namespace Drom

/-! ### `save_csv` (src/parser.py:379-392, src/parser/parser_mod.py:533-549) -/

/-- The fixed column list of src/parser/parser_mod.py's `save_csv`. -/
def csvKeysMod : List String :=
  ["url", "brand", "model", "year", "generation", "restyling",
   "price", "engine_volume", "fuel_t", "power_hp", "transmission", "drive",
   "body-type", "mileage", "owners", "steering", "equipment"]

/-- The fixed column list of src/parser.py's `save_csv`. -/
def csvKeysPy : List String :=
  ["brand", "model", "year", "generation",
   "price", "price_num", "engine", "power_l_s", "transmission", "drive",
   "body_type", "mileage", "owners_count", "steering", "equipment"]

/-- The column list the specification (§4.7) claims is written. -/
def specCsvColumns : List String :=
  ["url", "brand", "model", "year", "generation", "restyling",
   "price", "engine_volume", "fuel_type", "power_hp", "transmission", "drive",
   "body_type", "mileage", "owners", "steering", "equipment"]

/-- The written artifact: whether a UTF-8 byte-order mark is emitted
(`encoding="utf-8-sig"`) and the text rows, header first.  Record dicts
are insertion-ordered association lists of stringified cell values. -/
structure CsvOut where
  bom : Bool
  rows : List (List String)

/-- `save_csv` of src/parser/parser_mod.py: `none` models the
`"No items to save."` early-return no-op; otherwise the header followed by
one row per record, `row = {k: it.get(k, "N/A") for k in keys}`. -/
def saveCsvMod (items : List (List (String × String))) : Option CsvOut :=
  if items = [] then none
  else
    some ⟨true, csvKeysMod ::
      items.map (fun it => csvKeysMod.map (fun k => (it.lookup k).getD "N/A"))⟩

/-- `save_csv` of src/parser.py: `writer.writerows(items)`; `DictWriter`
renders a missing key with its empty-string `restval`. -/
def saveCsvPy (items : List (List (String × String))) : Option CsvOut :=
  if items = [] then none
  else
    some ⟨true, csvKeysPy ::
      items.map (fun it => csvKeysPy.map (fun k => (it.lookup k).getD ""))⟩

/-- C7 (amended): for every nonempty record list src/parser/parser_mod.py's
sink writes a BOM-prefixed table whose header row is exactly url, brand,
model, year, generation, restyling, price, engine_volume, `fuel_t`,
power_hp, transmission, drive, `body-type`, mileage, owners, steering,
equipment (the code's names `fuel_t` and `body-type`, not the claimed
`fuel_type`/`body_type`), one row per Record, each cell the record's value
for that column or the literal `N/A` sentinel when the record does not
determine it; the empty list writes nothing and reports a no-op.
(src/parser.py's sink writes a different fixed 15-column header.) -/
theorem save_csv_format (items : List (List (String × String)))
    (hne : items ≠ []) :
    saveCsvMod [] = none ∧
    saveCsvMod items =
      some ⟨true, csvKeysMod ::
        items.map (fun it => csvKeysMod.map (fun k => (it.lookup k).getD "N/A"))⟩ ∧
    (∀ out, saveCsvMod items = some out →
      out.bom = true ∧
      out.rows.length = items.length + 1 ∧
      ∀ r ∈ out.rows, r.length = csvKeysMod.length) := by
  refine ⟨rfl, ?_, ?_⟩
  · unfold saveCsvMod
    rw [if_neg hne]
  · intro out hout
    unfold saveCsvMod at hout
    rw [if_neg hne] at hout
    have h := Option.some.inj hout
    subst h
    refine ⟨rfl, by simp, ?_⟩
    intro r hr
    rcases List.mem_cons.mp hr with rfl | hr
    · rfl
    · obtain ⟨it, _, rfl⟩ := List.mem_map.mp hr
      simp

/-- Witness for C7 (amended) at a one-record list. -/
theorem save_csv_format_witness :
    saveCsvMod [[("url", "u")]] =
      some ⟨true, csvKeysMod ::
        [[("url", "u")]].map
          (fun it => csvKeysMod.map (fun k => (it.lookup k).getD "N/A"))⟩ :=
  (save_csv_format [[("url", "u")]] (by decide)).2.1

/-- Counterexample to C7 as stated: the header actually written is not the
claimed column list — src/parser/parser_mod.py writes `fuel_t` and
`body-type` where the claim says `fuel_type` and `body_type`, and
src/parser.py writes an entirely different 15-column header. -/
theorem save_csv_format_counterexample :
    (saveCsvMod [[("url", "u")]]).map (fun out => out.rows.head?) =
      some (some csvKeysMod) ∧
    csvKeysMod ≠ specCsvColumns ∧
    (saveCsvPy [[("url", "u")]]).map (fun out => out.rows.head?) =
      some (some csvKeysPy) ∧
    csvKeysPy ≠ specCsvColumns := by decide

end Drom

namespace Drom

/-! ### `_clean_title_for_brand_model` (src/parser.py:181-190) and the
regex helpers of `_parse_detail_from_text` (src/parser.py:193-315) -/

end Drom

namespace Drom

/-! ### `_parse_detail_from_text` (src/parser.py:193-315) -/

end Drom

namespace Drom

/-! ### `_clean_title_for_brand_model`, `_extract_generation` and
`_parse_engine` of src/parser/parser_mod.py (lines 232-249, 203-229,
114-146) -/

end Drom

namespace Drom

/-! ### `_parse_detail_from_text` of src/parser/parser_mod.py
(lines 252-439) -/

end Drom

namespace Drom

/-! Per-field extractors of the parser_mod revision, each a self-contained
function of the page. -/

end Drom
